import Mathlib

/-!
Verification of the purchase-analysis tool: a shallow embedding of the
customer-segmentation pipeline (`src/classification.py`) and the
recommendation engine (`src/recommendation.py`).

Conventions of the embedding:
* monetary amounts and derived statistics are rationals (`ℚ`), modelling the
  exact arithmetic the claims reason about;
* purchase dates and the reference time ("now", `datetime.now()` in the code)
  are integers counting whole days;
* pandas NaN values (mean/std of degenerate series) are modelled as `none` of
  an `Option` type;
* pandas/NumPy sorted unique indexes (`groupby`, `pivot_table`) are modelled by
  first-seen deduplication followed by an ascending insertion sort;
  `Series.sort_values(ascending=False)` goes through `nargsort`, which
  reverses values and indices, takes a stable ascending argsort, and reverses
  the resulting indexer — a stable descending sort, modelled here as
  reverse, stable ascending insertion sort, reverse.
-/

/-- One row of the purchase CSV: the immutable transaction record. -/
structure Transaction where
  customerId : String
  productId : String
  category : String
  amount : ℚ
  purchaseDate : ℤ
  deriving DecidableEq, Repr

/-- Stable insertion of an element into a list: the element is placed before
the first entry it compares `le` to, so ties keep their original order. -/
def insertSorted (le : α → α → Bool) (a : α) : List α → List α
  | [] => [a]
  | b :: bs => if le a b then a :: b :: bs else b :: insertSorted le a bs

/-- Stable ascending insertion sort. -/
def sortAsc (le : α → α → Bool) : List α → List α
  | [] => []
  | a :: as => insertSorted le a (sortAsc le as)

/-- First-seen deduplication, as performed by `pandas.unique`. -/
def uniqueFirst [DecidableEq α] : List α → List α
  | [] => []
  | a :: as => a :: (uniqueFirst as).filter (fun b => b ≠ a)

theorem insertSorted_perm (le : α → α → Bool) (a : α) :
    ∀ l : List α, List.Perm (insertSorted le a l) (a :: l)
  | [] => List.Perm.refl _
  | b :: bs => by
    unfold insertSorted
    split
    · exact List.Perm.refl _
    · exact ((insertSorted_perm le a bs).cons b).trans (List.Perm.swap a b bs)

theorem sortAsc_perm (le : α → α → Bool) : ∀ l : List α, List.Perm (sortAsc le l) l
  | [] => List.Perm.refl _
  | a :: as => (insertSorted_perm le a (sortAsc le as)).trans ((sortAsc_perm le as).cons a)

theorem mem_sortAsc (le : α → α → Bool) (l : List α) (x : α) :
    x ∈ sortAsc le l ↔ x ∈ l :=
  (sortAsc_perm le l).mem_iff

theorem length_sortAsc (le : α → α → Bool) (l : List α) :
    (sortAsc le l).length = l.length :=
  (sortAsc_perm le l).length_eq

theorem pairwise_insertSorted (le : α → α → Bool)
    (total : ∀ a b : α, le a b = true ∨ le b a = true)
    (trans : ∀ a b c : α, le a b = true → le b c = true → le a c = true) (a : α) :
    ∀ l : List α, l.Pairwise (fun x y => le x y = true) →
      (insertSorted le a l).Pairwise (fun x y => le x y = true)
  | [], _ => List.pairwise_singleton _ a
  | b :: bs, h => by
    unfold insertSorted
    rcases List.pairwise_cons.mp h with ⟨hb, hbs⟩
    split
    · next hab =>
      refine List.pairwise_cons.mpr ⟨?_, h⟩
      intro y hy
      rcases List.mem_cons.mp hy with rfl | hy
      · exact hab
      · exact trans a b y hab (hb y hy)
    · next hab =>
      refine List.pairwise_cons.mpr ⟨?_, pairwise_insertSorted le total trans a bs hbs⟩
      intro y hy
      rcases List.mem_cons.mp ((insertSorted_perm le a bs).mem_iff.mp hy) with rfl | hybs
      · cases total y b with
        | inl hle => exact absurd hle hab
        | inr hge => exact hge
      · exact hb y hybs

theorem sorted_sortAsc (le : α → α → Bool)
    (total : ∀ a b : α, le a b = true ∨ le b a = true)
    (trans : ∀ a b c : α, le a b = true → le b c = true → le a c = true) :
    ∀ l : List α, (sortAsc le l).Pairwise (fun x y => le x y = true)
  | [] => List.Pairwise.nil
  | a :: as =>
    pairwise_insertSorted le total trans a (sortAsc le as) (sorted_sortAsc le total trans as)

theorem mem_uniqueFirst [DecidableEq α] (l : List α) (x : α) :
    x ∈ uniqueFirst l ↔ x ∈ l := by
  induction l with
  | nil => simp [uniqueFirst]
  | cons a as ih =>
    simp only [uniqueFirst, List.mem_cons, List.mem_filter, ih, decide_eq_true_eq]
    constructor
    · rintro (rfl | ⟨h, _⟩)
      · exact Or.inl rfl
      · exact Or.inr h
    · rintro (rfl | h)
      · exact Or.inl rfl
      · by_cases hx : x = a
        · exact Or.inl hx
        · exact Or.inr ⟨h, by simpa using hx⟩

theorem nodup_uniqueFirst [DecidableEq α] : ∀ l : List α, (uniqueFirst l).Nodup
  | [] => List.nodup_nil
  | a :: as => by
    refine List.nodup_cons.mpr ⟨?_, (nodup_uniqueFirst as).filter _⟩
    intro hmem
    have := (List.mem_filter.mp hmem).2
    simp at this

theorem sum_map_ite_mem {β M : Type} [DecidableEq β] [AddCommMonoid M] (b0 : β) (v : M) :
    ∀ keys : List β, keys.Nodup → b0 ∈ keys →
      (keys.map (fun b => if b0 = b then v else 0)).sum = v
  | [], _, hmem => absurd hmem (List.not_mem_nil b0)
  | c :: cs, hnd, hmem => by
    rcases List.nodup_cons.mp hnd with ⟨hc, hcs⟩
    rcases List.mem_cons.mp hmem with rfl | hmem2
    · have hz : (cs.map (fun b => if b0 = b then v else 0)).sum = 0 := by
        apply List.sum_eq_zero
        intro x hx
        rcases List.mem_map.mp hx with ⟨b, hb, rfl⟩
        have : b0 ≠ b := fun h => hc (h ▸ hb)
        simp [this]
      simp [hz]
    · have hne : b0 ≠ c := fun h => hc (h ▸ hmem2)
      simp only [List.map_cons, List.sum_cons, if_neg hne, zero_add]
      exact sum_map_ite_mem b0 v cs hcs hmem2

/-- Grouping a list by a key and summing each group recovers the total sum,
provided the key list is duplicate-free and covers every element.  This is
the algebraic content of the pandas `groupby(...).sum()` / `pivot_table`
aggregations used throughout the pipeline. -/
theorem sum_map_filter_key {α β M : Type} [DecidableEq β] [AddCommMonoid M]
    (k : α → β) (f : α → M) (keys : List β) :
    ∀ l : List α, keys.Nodup → (∀ x ∈ l, k x ∈ keys) →
      (keys.map (fun b => ((l.filter (fun x => k x = b)).map f).sum)).sum
        = (l.map f).sum
  | [], _, _ => by
    simp
  | x :: xs, hnd, hcov => by
    have hx : k x ∈ keys := hcov x (List.mem_cons_self x xs)
    have hxs : ∀ y ∈ xs, k y ∈ keys := fun y hy => hcov y (List.mem_cons_of_mem x hy)
    have hsplit : ∀ b : β,
        (((x :: xs).filter (fun y => k y = b)).map f).sum
          = (if k x = b then f x else 0)
            + ((xs.filter (fun y => k y = b)).map f).sum := by
      intro b
      by_cases hb : k x = b
      · simp [List.filter_cons, hb]
      · simp [List.filter_cons, hb]
    calc (keys.map (fun b => (((x :: xs).filter (fun y => k y = b)).map f).sum)).sum
        = (keys.map (fun b => (if k x = b then f x else 0)
            + ((xs.filter (fun y => k y = b)).map f).sum)).sum := by
          exact congrArg List.sum (List.map_congr_left (fun b _ => hsplit b))
      _ = (keys.map (fun b => if k x = b then f x else 0)).sum
            + (keys.map (fun b => ((xs.filter (fun y => k y = b)).map f).sum)).sum := by
          rw [← List.sum_map_add]
      _ = f x + (xs.map f).sum := by
          rw [sum_map_ite_mem (k x) (f x) keys hnd hx,
            sum_map_filter_key k f keys xs hnd hxs]
      _ = ((x :: xs).map f).sum := by simp

/-- Boolean ascending comparison on strings, used for pandas sorted indexes. -/
def strLe (a b : String) : Bool := a ≤ b

/-- The index of the per-customer feature table and of the purchase matrix:
the distinct customer ids of the transaction store, in ascending order
(pandas `groupby` / `pivot_table` sort their keys). -/
def customersOf (df : List Transaction) : List String :=
  sortAsc strLe (uniqueFirst (df.map (fun t => t.customerId)))

/-- All transactions of one customer, in store order
(`df[df['Customer ID'] == c]`). -/
def txOf (df : List Transaction) (c : String) : List Transaction :=
  df.filter (fun t => t.customerId = c)

/-- `Total Spending`: `groupby('Customer ID')['Purchase Amount'].transform('sum')`. -/
def totalSpending (df : List Transaction) (c : String) : ℚ :=
  ((txOf df c).map (fun t => t.amount)).sum

/-- `Purchase Frequency`: `groupby('Customer ID')['Purchase Date'].transform('count')`. -/
def purchaseFrequency (df : List Transaction) (c : String) : ℕ :=
  (txOf df c).length

/-- `Average Purchase Amount` = `Total Spending / Purchase Frequency`. -/
def averagePurchaseAmount (df : List Transaction) (c : String) : ℚ :=
  totalSpending df c / (purchaseFrequency df c : ℚ)

/-- `groupby('Customer ID')['Purchase Date'].transform('max')`; the default is
irrelevant because every customer in the feature index has a transaction. -/
def lastPurchaseDate (df : List Transaction) (c : String) : ℤ :=
  (((txOf df c).map (fun t => t.purchaseDate)).max?).getD 0

/-- `Days Since Last Purchase` = reference time minus the customer's most
recent purchase date, in whole days (`(current_date - max).dt.days`). -/
def daysSinceLastPurchase (now : ℤ) (df : List Transaction) (c : String) : ℤ :=
  now - lastPurchaseDate df c

/-- The column set of the category pivot table: the distinct categories
observed anywhere in the store, in ascending order. -/
def allCategories (df : List Transaction) : List String :=
  sortAsc strLe (uniqueFirst (df.map (fun t => t.category)))

/-- One cell of the category pivot table: the customer's total spend in one
category (`pivot_table(values='Purchase Amount', aggfunc='sum', fill_value=0)`). -/
def catSpend (df : List Transaction) (c : String) (cat : String) : ℚ :=
  (((txOf df c).filter (fun t => t.category = cat)).map (fun t => t.amount)).sum

/-- The customer's pivot row total (`category_pivot.sum(axis=1)`), the
divisor used to turn spend into shares. -/
def catRowSum (df : List Transaction) (c : String) : ℚ :=
  ((allCategories df).map (fun cat => catSpend df c cat)).sum

/-- The customer's category-share row: each pivot cell divided by the row
total (`category_pivot.div(category_pivot.sum(axis=1), axis=0)`).  Note that
`ℚ` division by zero yields `0` where pandas would yield NaN; the claims only
concern customers with positive total spending, where the two agree. -/
def categoryShare (df : List Transaction) (c : String) : List (String × ℚ) :=
  (allCategories df).map (fun cat => (cat, catSpend df c cat / catRowSum df c))

/-- The per-customer feature vector assembled by `_prepare_features`. -/
structure CustomerFeatureVector where
  totalSpending : ℚ
  purchaseFrequency : ℕ
  averagePurchaseAmount : ℚ
  daysSinceLastPurchase : ℤ
  categoryShare : List (String × ℚ)
  deriving DecidableEq, Repr

/-- The feature vector of one customer. -/
def featureVector (df : List Transaction) (now : ℤ) (c : String) : CustomerFeatureVector :=
  { totalSpending := totalSpending df c
    purchaseFrequency := purchaseFrequency df c
    averagePurchaseAmount := averagePurchaseAmount df c
    daysSinceLastPurchase := daysSinceLastPurchase now df c
    categoryShare := categoryShare df c }

/-- The feature table `self.features`: one row per distinct customer, indexed
in ascending customer-id order. -/
def features (df : List Transaction) (now : ℤ) : List (String × CustomerFeatureVector) :=
  (customersOf df).map (fun c => (c, featureVector df now c))

theorem nodup_customersOf (df : List Transaction) : (customersOf df).Nodup :=
  ((sortAsc_perm strLe _).nodup_iff).mpr (nodup_uniqueFirst _)

theorem mem_customersOf (df : List Transaction) (c : String) :
    c ∈ customersOf df ↔ ∃ t ∈ df, t.customerId = c := by
  unfold customersOf
  rw [mem_sortAsc, mem_uniqueFirst, List.mem_map]

theorem nodup_allCategories (df : List Transaction) : (allCategories df).Nodup :=
  ((sortAsc_perm strLe _).nodup_iff).mpr (nodup_uniqueFirst _)

theorem mem_allCategories (df : List Transaction) (cat : String) :
    cat ∈ allCategories df ↔ ∃ t ∈ df, t.category = cat := by
  unfold allCategories
  rw [mem_sortAsc, mem_uniqueFirst, List.mem_map]

/-- C9.  Conservation of spend: summing `total_spending` over the customer
feature table gives exactly the sum of `amount` over all transactions. -/
theorem totalSpending_conservation (df : List Transaction) (now : ℤ) :
    ((features df now).map (fun p => p.2.totalSpending)).sum
      = (df.map (fun t => t.amount)).sum := by
  have h1 : ((features df now).map (fun p => p.2.totalSpending))
      = (customersOf df).map (fun c => totalSpending df c) := by
    unfold features
    rw [List.map_map]
    rfl
  rw [h1]
  exact sum_map_filter_key (fun t => t.customerId) (fun t => t.amount)
    (customersOf df) df (nodup_customersOf df)
    (fun x hx => (mem_customersOf df x.customerId).mpr ⟨x, hx, rfl⟩)

/-- The dynamic thresholds consumed by `_label_segment` (the `spending`,
`frequency` and `recency` entries of the thresholds dict), as a record of
well-defined numeric values. -/
structure SegThresholds where
  spendingHigh : ℚ
  spendingMedium : ℚ
  frequencyHigh : ℚ
  frequencyMedium : ℚ
  recency : ℚ
  deriving DecidableEq, Repr

/-- Rules 2–6 of `_label_segment`: the part of the decision list that runs
when the customer is not inactive. -/
def labelRest (ts pf : ℚ) (sHigh fHigh sMed fMed : ℚ) : String :=
  if ts > sHigh ∧ pf > fHigh then "High-Value Frequent Buyers"
  else if ts > sHigh then "Big Spenders"
  else if pf > fHigh then "Frequent Low-Value Buyers"
  else if ts > sMed ∧ pf > fMed then "Regular Customers"
  else "Occasional Buyers"

/-- `_label_segment`: the six-rule first-match-wins decision list over a
customer's `Total Spending` (`ts`), `Purchase Frequency` (`pf`) and
`Days Since Last Purchase` (`days`). -/
def labelSegment (ts pf days : ℚ) (t : SegThresholds) : String :=
  if days > t.recency then "Inactive Customers"
  else labelRest ts pf t.spendingHigh t.frequencyHigh t.spendingMedium t.frequencyMedium

/-- The six enumerated segment labels. -/
def segmentLabels : List String :=
  ["Inactive Customers", "High-Value Frequent Buyers", "Big Spenders",
   "Frequent Low-Value Buyers", "Regular Customers", "Occasional Buyers"]

/-- C1.  The segment labeler is a total function into the six enumerated
labels; each label is characterised exactly by its position in the decision
list, with every comparison strict; and a customer sitting exactly on both
high thresholds is never "High-Value Frequent Buyers" and, when not
inactive, falls through to rule 5 or rule 6. -/
theorem labelSegment_decision_list (ts pf days : ℚ) (t : SegThresholds) :
    labelSegment ts pf days t ∈ segmentLabels
    ∧ (labelSegment ts pf days t = "Inactive Customers" ↔ days > t.recency)
    ∧ (labelSegment ts pf days t = "High-Value Frequent Buyers" ↔
        (days ≤ t.recency ∧ ts > t.spendingHigh ∧ pf > t.frequencyHigh))
    ∧ (labelSegment ts pf days t = "Big Spenders" ↔
        (days ≤ t.recency ∧ ts > t.spendingHigh ∧ pf ≤ t.frequencyHigh))
    ∧ (labelSegment ts pf days t = "Frequent Low-Value Buyers" ↔
        (days ≤ t.recency ∧ ts ≤ t.spendingHigh ∧ pf > t.frequencyHigh))
    ∧ (labelSegment ts pf days t = "Regular Customers" ↔
        (days ≤ t.recency ∧ ts ≤ t.spendingHigh ∧ pf ≤ t.frequencyHigh
          ∧ ts > t.spendingMedium ∧ pf > t.frequencyMedium))
    ∧ (labelSegment ts pf days t = "Occasional Buyers" ↔
        (days ≤ t.recency ∧ ts ≤ t.spendingHigh ∧ pf ≤ t.frequencyHigh
          ∧ ¬(ts > t.spendingMedium ∧ pf > t.frequencyMedium)))
    ∧ (ts = t.spendingHigh → pf = t.frequencyHigh →
        labelSegment ts pf days t ≠ "High-Value Frequent Buyers"
        ∧ (days ≤ t.recency →
            labelSegment ts pf days t = "Regular Customers"
            ∨ labelSegment ts pf days t = "Occasional Buyers")) := by
  unfold labelSegment labelRest segmentLabels
  split_ifs with h1 h2 h3 h4 h5 <;>
    simp_all <;>
    first
    | (constructor <;> intro h <;> simp_all <;> linarith)
    | (rintro rfl rfl; simp_all)

/-- Witness for C1 at a concrete tie: spending exactly at `spending_high`,
frequency exactly at `frequency_high`, recent purchase. -/
theorem labelSegment_decision_list_witness :
    labelSegment 10 4 0 ⟨10, 5, 4, 2, 30⟩ ∈ segmentLabels
    ∧ labelSegment 10 4 0 ⟨10, 5, 4, 2, 30⟩ ≠ "High-Value Frequent Buyers"
    ∧ (labelSegment 10 4 0 ⟨10, 5, 4, 2, 30⟩ = "Regular Customers"
        ∨ labelSegment 10 4 0 ⟨10, 5, 4, 2, 30⟩ = "Occasional Buyers") := by
  have h := labelSegment_decision_list 10 4 0 ⟨10, 5, 4, 2, 30⟩
  exact ⟨h.1, (h.2.2.2.2.2.2.2 rfl rfl).1, (h.2.2.2.2.2.2.2 rfl rfl).2 (by norm_num)⟩

/-- Mean of a pandas series; NaN on an empty series is modelled as `none`. -/
def pandasMean (l : List ℚ) : Option ℚ :=
  if l.isEmpty then none else some (l.sum / (l.length : ℚ))

/-- Sample variance with `ddof = 1`, the quantity under the square root of
pandas `Series.std`; NaN (fewer than two samples) is modelled as `none`. -/
def sampleVariance (l : List ℚ) : Option ℚ :=
  if l.length < 2 then none
  else some (((l.map (fun x => (x - l.sum / (l.length : ℚ)) ^ 2)).sum) / ((l.length : ℚ) - 1))

/-- Sample standard deviation, pandas `Series.std` (`ddof = 1`): the square
root of the sample variance, NaN (`none`) when fewer than two samples exist.
The square root forces the value into `ℝ`; no claim depends on its numeric
value, only on its definedness. -/
noncomputable def sampleStd (l : List ℚ) : Option ℝ :=
  (sampleVariance l).map (fun v => Real.sqrt (v : ℝ))

/-- Linear-interpolation quantile of a series, the pandas `Series.quantile`
default: index `q * (n - 1)` into the sorted values, interpolating between
the two neighbouring order statistics.  (Empty series, NaN in pandas, is
given the junk value 0; the claims never evaluate it there.) -/
def quantileLinear (l : List ℚ) (q : ℚ) : ℚ :=
  let s := sortAsc (fun a b => decide (a ≤ b)) l
  let h := q * ((s.length : ℚ) - 1)
  let i := h.floor.toNat
  let lo := s.getD i 0
  let hi := s.getD (i + 1) lo
  lo + (h - (h.floor : ℚ)) * (hi - lo)

/-- The result of `_calculate_thresholds`: quantile thresholds for spending
and frequency, and the mean-plus-scaled-std recency cutoff, which is NaN
(`none`) whenever the std is undefined. -/
structure ThresholdsResult where
  spendingHigh : ℚ
  spendingMedium : ℚ
  frequencyHigh : ℚ
  frequencyMedium : ℚ
  recency : Option ℝ

/-- `_calculate_thresholds`: percentile thresholds over the feature columns
and `recency = mean + std * multiplier` over `Days Since Last Purchase`. -/
noncomputable def calcThresholds (df : List Transaction) (now : ℤ)
    (highPercentile mediumPercentile recencyStdMultiplier : ℚ) : ThresholdsResult :=
  let custs := customersOf df
  let spend := custs.map (fun c => totalSpending df c)
  let freq := custs.map (fun c => (purchaseFrequency df c : ℚ))
  let days := custs.map (fun c => (daysSinceLastPurchase now df c : ℚ))
  { spendingHigh := quantileLinear spend highPercentile
    spendingMedium := quantileLinear spend mediumPercentile
    frequencyHigh := quantileLinear freq highPercentile
    frequencyMedium := quantileLinear freq mediumPercentile
    recency :=
      match pandasMean days, sampleStd days with
      | some m, some s => some ((m : ℝ) + s * (recencyStdMultiplier : ℚ))
      | _, _ => none }

theorem calcThresholds_recency_nan (df : List Transaction) (now : ℤ)
    (hp mp mult : ℚ) (h : (customersOf df).length < 2) :
    (calcThresholds df now hp mp mult).recency = none := by
  simp only [calcThresholds]
  have hlen : ((customersOf df).map
      (fun c => (daysSinceLastPurchase now df c : ℚ))).length < 2 := by
    simpa using h
  have hstd : sampleStd ((customersOf df).map
      (fun c => (daysSinceLastPurchase now df c : ℚ))) = none := by
    unfold sampleStd sampleVariance
    rw [if_pos hlen]
    rfl
  rw [hstd]
  rcases pandasMean ((customersOf df).map (fun c => (daysSinceLastPurchase now df c : ℚ))) with _ | m
  · rfl
  · rfl

/-- A transaction store with a single customer: the degenerate input for the
threshold calculator. -/
def dfOneCustomer : List Transaction :=
  [{ customerId := "C1", productId := "P1", category := "Books",
     amount := 100, purchaseDate := 0 }]

/-- C6.  Evaluating `_calculate_thresholds` on a store with fewer than two
customers: the code returns a NaN recency threshold (modelled `none`) and
continues; no precondition failure is raised anywhere in the function. -/
theorem calcThresholds_single_customer_nan :
    (calcThresholds dfOneCustomer 5 (3/4) (1/2) 1).recency = none :=
  calcThresholds_recency_nan dfOneCustomer 5 (3/4) (1/2) 1 (by decide)

/-- The label `_label_segment` computes inside the pipeline, where the
recency threshold may be NaN: a comparison against NaN is false in Python,
so rule 1 can never fire when the threshold is NaN. -/
noncomputable def pipelineLabel (df : List Transaction) (now : ℤ)
    (hp mp mult : ℚ) (c : String) : String :=
  let t := calcThresholds df now hp mp mult
  let inactive : Bool :=
    match t.recency with
    | none => false
    | some r => decide (((daysSinceLastPurchase now df c : ℚ) : ℝ) > r)
  if inactive then "Inactive Customers"
  else labelRest (totalSpending df c) ((purchaseFrequency df c : ℚ))
    t.spendingHigh t.frequencyHigh t.spendingMedium t.frequencyMedium

/-- The dict returned by `get_customer_segment` for a known customer. -/
structure CustomerSegmentInfo where
  customerId : String
  segment : String
  totalSpending : ℚ
  purchaseFrequency : ℕ
  averageOrderValue : ℚ
  daysSinceLastPurchase : ℤ
  thresholds : ThresholdsResult

/-- `get_customer_segment`: `None` (modelled `none`) when the customer id is
absent from the feature index, otherwise the customer's segment, metrics and
the threshold values. -/
noncomputable def getCustomerSegment (df : List Transaction) (now : ℤ)
    (hp mp mult : ℚ) (c : String) : Option CustomerSegmentInfo :=
  if c ∈ customersOf df then
    some
      { customerId := c
        segment := pipelineLabel df now hp mp mult c
        totalSpending := totalSpending df c
        purchaseFrequency := purchaseFrequency df c
        averageOrderValue := averagePurchaseAmount df c
        daysSinceLastPurchase := daysSinceLastPurchase now df c
        thresholds := calcThresholds df now hp mp mult }
  else none

/-- One row of `self.features` after `perform_clustering` attached the
`Segment` column: the metrics used by `get_segmentation_results`. -/
structure FeatRow where
  customerId : String
  totalSpending : ℚ
  purchaseFrequency : ℚ
  averagePurchaseAmount : ℚ
  daysSinceLastPurchase : ℚ
  segment : String
  deriving DecidableEq, Repr

/-- Mean of a list of rationals (`Series.mean` on a nonempty series). -/
def listMean (l : List ℚ) : ℚ := l.sum / (l.length : ℚ)

/-- One entry of the `segments` list in the results dict. -/
structure SegStat where
  segmentName : String
  customerCount : ℕ
  avgSpending : ℚ
  avgFrequency : ℚ
  avgOrderValue : ℚ
  avgDaysSincePurchase : ℚ
  deriving DecidableEq, Repr

/-- The per-segment loop of `get_segmentation_results`: for every value of
`features['Segment'].unique()` (first-seen order), the statistics of the rows
carrying that segment. -/
def segmentsSummary (fs : List FeatRow) : List SegStat :=
  (uniqueFirst (fs.map (fun r => r.segment))).map (fun s =>
    let seg := fs.filter (fun r => r.segment = s)
    { segmentName := s
      customerCount := seg.length
      avgSpending := listMean (seg.map (fun r => r.totalSpending))
      avgFrequency := listMean (seg.map (fun r => r.purchaseFrequency))
      avgOrderValue := listMean (seg.map (fun r => r.averagePurchaseAmount))
      avgDaysSincePurchase := listMean (seg.map (fun r => r.daysSinceLastPurchase)) })

/-- The results dict of `get_segmentation_results`: summary totals plus the
per-segment statistics (threshold values are carried through unchanged and
are irrelevant to the counting claims). -/
structure SegResults where
  totalCustomers : ℕ
  numberOfSegments : ℕ
  segments : List SegStat

/-- `get_segmentation_results` restricted to its counting structure:
`total_customers = len(self.features)` and the per-segment list. -/
def segmentationResults (fs : List FeatRow) : SegResults :=
  { totalCustomers := fs.length
    numberOfSegments := (segmentsSummary fs).length
    segments := segmentsSummary fs }

/-- In a duplicate-free list, filtering for one contained element yields a
singleton. -/
theorem length_filter_eq_one_of_nodup {β : Type} [DecidableEq β] (b : β) :
    ∀ keys : List β, keys.Nodup → b ∈ keys →
      (keys.filter (fun s => b = s)).length = 1
  | [], _, hmem => absurd hmem (List.not_mem_nil b)
  | c :: cs, hnd, hmem => by
    rcases List.nodup_cons.mp hnd with ⟨hc, hcs⟩
    rcases List.mem_cons.mp hmem with rfl | hmem2
    · rw [List.filter_cons_of_pos (by simp)]
      have hnil : cs.filter (fun s => b = s) = [] := by
        apply List.filter_eq_nil_iff.mpr
        intro a ha
        simp only [decide_eq_true_eq]
        exact fun h => hc (h ▸ ha)
      rw [hnil]
      rfl
    · have hbc : b ≠ c := fun h => hc (h ▸ hmem2)
      rw [List.filter_cons, if_neg (by simpa using hbc)]
      exact length_filter_eq_one_of_nodup b cs hcs hmem2

theorem sum_map_const_one {γ : Type} : ∀ l : List γ, (l.map (fun _ => (1 : ℕ))).sum = l.length
  | [] => rfl
  | a :: as => by simp [sum_map_const_one as, Nat.add_comm]

/-- C10.  Per-segment customer counts sum to `total_customers`, and every
feature row is counted by exactly one entry of the segments list: the
segment groups partition the customer set. -/
theorem segmentationResults_partition (fs : List FeatRow) :
    (((segmentationResults fs).segments.map (fun st => st.customerCount)).sum
        = (segmentationResults fs).totalCustomers)
    ∧ ∀ r ∈ fs,
        ((segmentationResults fs).segments.filter
          (fun st => r.segment = st.segmentName)).length = 1 := by
  constructor
  · show ((segmentsSummary fs).map (fun st => st.customerCount)).sum = fs.length
    unfold segmentsSummary
    rw [List.map_map]
    show ((uniqueFirst (fs.map (fun r => r.segment))).map
      (fun s => (fs.filter (fun r => r.segment = s)).length)).sum = fs.length
    have hcount :
        ((uniqueFirst (fs.map (fun r => r.segment))).map
          (fun s => ((fs.filter (fun r => r.segment = s)).map (fun _ => (1 : ℕ))).sum)).sum
          = (fs.map (fun _ => (1 : ℕ))).sum :=
      sum_map_filter_key (fun r => r.segment) (fun _ => (1 : ℕ))
        (uniqueFirst (fs.map (fun r => r.segment))) fs
        (nodup_uniqueFirst _)
        (fun x hx => (mem_uniqueFirst _ _).mpr (List.mem_map.mpr ⟨x, hx, rfl⟩))
    calc ((uniqueFirst (fs.map (fun r => r.segment))).map
            (fun s => (fs.filter (fun r => r.segment = s)).length)).sum
        = ((uniqueFirst (fs.map (fun r => r.segment))).map
            (fun s => ((fs.filter (fun r => r.segment = s)).map (fun _ => (1 : ℕ))).sum)).sum := by
          refine congrArg List.sum (List.map_congr_left (fun s _ => ?_))
          rw [sum_map_const_one]
      _ = (fs.map (fun _ => (1 : ℕ))).sum := hcount
      _ = fs.length := sum_map_const_one fs
  · intro r hr
    show ((segmentsSummary fs).filter (fun st => r.segment = st.segmentName)).length = 1
    unfold segmentsSummary
    rw [List.filter_map, List.length_map]
    show ((uniqueFirst (fs.map (fun x => x.segment))).filter
      (fun s => r.segment = s)).length = 1
    exact length_filter_eq_one_of_nodup r.segment _
      (nodup_uniqueFirst _)
      ((mem_uniqueFirst _ _).mpr (List.mem_map.mpr ⟨r, hr, rfl⟩))

/-- A concrete feature table with three customers across two segments. -/
def fsThree : List FeatRow :=
  [{ customerId := "C1", totalSpending := 100, purchaseFrequency := 2,
     averagePurchaseAmount := 50, daysSinceLastPurchase := 3, segment := "Big Spenders" },
   { customerId := "C2", totalSpending := 10, purchaseFrequency := 1,
     averagePurchaseAmount := 10, daysSinceLastPurchase := 5, segment := "Occasional Buyers" },
   { customerId := "C3", totalSpending := 120, purchaseFrequency := 3,
     averagePurchaseAmount := 40, daysSinceLastPurchase := 2, segment := "Big Spenders" }]

/-- The first row of `fsThree`. -/
def rowC1 : FeatRow :=
  { customerId := "C1", totalSpending := 100, purchaseFrequency := 2,
    averagePurchaseAmount := 50, daysSinceLastPurchase := 3, segment := "Big Spenders" }

/-- Witness for C10 on the concrete three-row feature table. -/
theorem segmentationResults_partition_witness :
    (((segmentationResults fsThree).segments.map (fun st => st.customerCount)).sum
        = (segmentationResults fsThree).totalCustomers)
    ∧ ((segmentationResults fsThree).segments.filter
        (fun st => rowC1.segment = st.segmentName)).length = 1 :=
  ⟨(segmentationResults_partition fsThree).1,
   (segmentationResults_partition fsThree).2 rowC1 (by decide)⟩

/-- C7 (amended).  A customer with exactly one transaction has
`average_purchase_amount = total_spending`, and `days_since_last_purchase`
equal to the reference time minus that transaction's purchase date. -/
theorem singleTransaction_features (df : List Transaction) (now : ℤ)
    (c : String) (t : Transaction)
    (h : df.filter (fun x => x.customerId = c) = [t]) :
    averagePurchaseAmount df c = totalSpending df c
    ∧ daysSinceLastPurchase now df c = now - t.purchaseDate := by
  have htx : txOf df c = [t] := h
  have hfreq : purchaseFrequency df c = 1 := by
    unfold purchaseFrequency
    rw [htx]
    rfl
  constructor
  · unfold averagePurchaseAmount
    rw [hfreq]
    norm_num
  · unfold daysSinceLastPurchase lastPurchaseDate
    rw [htx]
    rfl

/-- The single transaction of `dfOneCustomer`. -/
def tx1 : Transaction :=
  { customerId := "C1", productId := "P1", category := "Books",
    amount := 100, purchaseDate := 0 }

/-- Witness for C7 (amended) on the one-transaction store at reference
time 10. -/
theorem singleTransaction_features_witness :
    averagePurchaseAmount dfOneCustomer "C1" = totalSpending dfOneCustomer "C1"
    ∧ daysSinceLastPurchase 10 dfOneCustomer "C1" = 10 - tx1.purchaseDate :=
  singleTransaction_features dfOneCustomer 10 "C1" tx1 (by decide)

/-- Counterexample to C7 as stated: a customer with exactly one transaction,
made ten days before the reference time, has `days_since_last_purchase = 10`,
not `0`. -/
theorem singleTransaction_recency_not_zero :
    dfOneCustomer.filter (fun x => x.customerId = "C1") = [tx1]
    ∧ daysSinceLastPurchase 10 dfOneCustomer "C1" = 10
    ∧ ¬daysSinceLastPurchase 10 dfOneCustomer "C1" = 0 := by
  refine ⟨by decide, by decide, by decide⟩

/-- C8.  The category-share keys of every feature vector are exactly the
categories observed across the whole store (absent categories appear with
share 0 via the pivot `fill_value=0`), and for a customer with positive
total spending the shares sum to exactly 1. -/
theorem categoryShare_keys_and_sum (df : List Transaction) (now : ℤ) (c : String) :
    ((featureVector df now c).categoryShare.map Prod.fst = allCategories df)
    ∧ (∀ cat : String,
        cat ∈ (featureVector df now c).categoryShare.map Prod.fst ↔
          ∃ t ∈ df, t.category = cat)
    ∧ (totalSpending df c > 0 →
        ((featureVector df now c).categoryShare.map Prod.snd).sum = 1) := by
  have hcs : (featureVector df now c).categoryShare = categoryShare df c := rfl
  have hkeys : (categoryShare df c).map Prod.fst = allCategories df := by
    unfold categoryShare
    rw [List.map_map]
    rw [show (Prod.fst ∘ fun cat =>
      (cat, catSpend df c cat / catRowSum df c)) = id from rfl]
    exact List.map_id _
  have hrow : catRowSum df c = totalSpending df c := by
    unfold catRowSum catSpend totalSpending
    exact sum_map_filter_key (fun t => t.category) (fun t => t.amount)
      (allCategories df) (txOf df c) (nodup_allCategories df)
      (fun x hx => (mem_allCategories df x.category).mpr
        ⟨x, List.mem_of_mem_filter hx, rfl⟩)
  refine ⟨by rw [hcs]; exact hkeys, ?_, ?_⟩
  · intro cat
    rw [hcs, hkeys]
    exact mem_allCategories df cat
  · intro hpos
    rw [hcs]
    unfold categoryShare
    rw [List.map_map]
    have hshare : ((allCategories df).map
        (Prod.snd ∘ fun cat => (cat, catSpend df c cat / catRowSum df c))).sum
        = ((allCategories df).map (fun cat => catSpend df c cat)).sum / catRowSum df c := by
      rw [show (Prod.snd ∘ fun cat => (cat, catSpend df c cat / catRowSum df c))
        = fun cat => catSpend df c cat / catRowSum df c from rfl]
      simp only [div_eq_mul_inv]
      exact List.sum_map_mul_right _ _ _
    rw [hshare]
    show catRowSum df c / catRowSum df c = 1
    rw [hrow]
    exact div_self (ne_of_gt hpos)

/-- Witness for C8 on the one-transaction store: total spending 100 > 0. -/
theorem categoryShare_keys_and_sum_witness :
    totalSpending dfOneCustomer "C1" > 0
    ∧ ((featureVector dfOneCustomer 10 "C1").categoryShare.map Prod.snd).sum = 1 := by
  have hpos : totalSpending dfOneCustomer "C1" > 0 := by
    norm_num [totalSpending, txOf, dfOneCustomer]
  exact ⟨hpos, (categoryShare_keys_and_sum dfOneCustomer 10 "C1").2.2 hpos⟩

/-- The column index of the purchase matrix: the distinct product ids of the
store, in ascending order (`pivot_table` sorts its columns). -/
def matrixProducts (df : List Transaction) : List String :=
  sortAsc strLe (uniqueFirst (df.map (fun t => t.productId)))

theorem nodup_matrixProducts (df : List Transaction) : (matrixProducts df).Nodup :=
  ((sortAsc_perm strLe _).nodup_iff).mpr (nodup_uniqueFirst _)

theorem mem_matrixProducts (df : List Transaction) (p : String) :
    p ∈ matrixProducts df ↔ ∃ t ∈ df, t.productId = p := by
  unfold matrixProducts
  rw [mem_sortAsc, mem_uniqueFirst, List.mem_map]

/-- One cell of the purchase matrix: the total amount the customer spent on
the product (`pivot_table(values='Purchase Amount', aggfunc='sum',
fill_value=0)`), 0 when the pair never occurs. -/
def purchaseCell (df : List Transaction) (c p : String) : ℚ :=
  ((df.filter (fun t => t.customerId = c ∧ t.productId = p)).map (fun t => t.amount)).sum

/-- One row of the purchase matrix (`purchase_matrix.loc[c]`). -/
def matrixRow (df : List Transaction) (c : String) : List ℚ :=
  (matrixProducts df).map (fun p => purchaseCell df c p)

/-- The dense customer×product purchase matrix (`purchase_matrix.values`). -/
def purchaseMatrix (df : List Transaction) : List (List ℚ) :=
  (customersOf df).map (fun c => matrixRow df c)

/-- Mean of one matrix row (`np.mean(matrix, axis=1)` for that row). -/
def rowMean (r : List ℚ) : ℚ := r.sum / (r.length : ℚ)

/-- The per-customer means vector (`user_means`). -/
def userMeans (df : List Transaction) : List ℚ :=
  (purchaseMatrix df).map rowMean

/-- The mean-centred matrix (`matrix_norm = matrix - user_means.reshape(-1,1)`). -/
def centeredMatrix (df : List Transaction) : List (List ℚ) :=
  List.zipWith (fun r m => r.map (fun x => x - m)) (purchaseMatrix df) (userMeans df)

/-- Dot product of two equal-length vectors. -/
def dotProd (xs ys : List ℚ) : ℚ := (List.zipWith (fun a b => a * b) xs ys).sum

/-- Column `j` of a row-major matrix. -/
def colOf (B : List (List ℚ)) (j : ℕ) : List ℚ := B.map (fun r => r.getD j 0)

/-- Number of columns of a row-major matrix (length of its first row). -/
def numColsOf (B : List (List ℚ)) : ℕ := (B.headD []).length

/-- Row-major matrix product (`np.dot`). -/
def matMul (A B : List (List ℚ)) : List (List ℚ) :=
  A.map (fun ar => (List.range (numColsOf B)).map (fun j => dotProd ar (colOf B j)))

/-- `np.diag(sigma)`: the square diagonal matrix of the singular values. -/
def diagMat (σ : List ℚ) : List (List ℚ) :=
  (List.range σ.length).map (fun i =>
    (List.range σ.length).map (fun j => if i = j then σ.getD i 0 else 0))

/-- The reconstruction step of `_load_and_process_data`: given factor
components `U`, `sigma`, `Vt` returned by the truncated SVD, compute
`np.dot(np.dot(U, np.diag(sigma)), Vt) + user_means.reshape(-1, 1)`.
The factorization itself is numerical (`scipy.sparse.linalg.svds`); the
claims quantify over its output, so the factors are parameters here. -/
def predictedRatings (df : List Transaction) (U : List (List ℚ)) (σ : List ℚ)
    (Vt : List (List ℚ)) : List (List ℚ) :=
  List.zipWith (fun r m => r.map (fun x => x + m)) (matMul (matMul U (diagMat σ)) Vt)
    (userMeans df)

/-- One recommended product in the output of `get_recommendations`. -/
structure RecItem where
  productId : String
  category : String
  predictedRating : ℚ
  deriving DecidableEq, Repr

/-- The dict returned by `get_recommendations`. -/
structure RecResult where
  error : Option String
  recommendations : List RecItem
  customerId : String
  deriving DecidableEq, Repr

/-- The first category observed for a product in the transaction store
(`df[df['Product ID'] == prod_id]['Product Category'].iloc[0]`); the junk
default is never reached for products drawn from the matrix columns. -/
def firstCategory (df : List Transaction) (p : String) : String :=
  ((df.filter (fun t => t.productId = p)).map (fun t => t.category)).headD ""

/-- Pandas `Series.sort_values(ascending=False)`: since pandas 1.2
(GH 35922) the descending path of `pandas.core.sorting.nargsort` reverses
the values and indices, takes a stable ascending argsort, and reverses the
resulting indexer.  The two reversals cancel on strictly ordered entries and
make the overall descending sort stable: tied entries keep their original
(input) order.  Modelled as reverse, stable ascending insertion sort,
reverse. -/
def sortValuesDesc (l : List (String × ℚ)) : List (String × ℚ) :=
  (sortAsc (fun a b => decide (a.2 ≤ b.2)) l.reverse).reverse

/-- `get_recommendations`: not-found error result for unknown customers;
otherwise the customer's zero-cell products ranked by predicted rating
descending, truncated to `n`, with first-observed categories attached.
The predictions matrix is abstracted as the score function `pred`
(row lookup `predictions_df.loc[c, p]`); its index equals the purchase
matrix index, which is `customersOf df`. -/
def getRecommendations (df : List Transaction) (pred : String → String → ℚ)
    (customerId : String) (n : ℕ) : RecResult :=
  if customerId ∈ customersOf df then
    let notPurchased := (matrixProducts df).filter
      (fun p => purchaseCell df customerId p = 0)
    let predicted := notPurchased.map (fun p => (p, pred customerId p))
    let top := (sortValuesDesc predicted).take n
    { error := none
      recommendations := top.map (fun pr =>
        { productId := pr.1, category := firstCategory df pr.1,
          predictedRating := pr.2 })
      customerId := customerId }
  else
    { error := some ("Customer " ++ customerId ++ " not found in database")
      recommendations := []
      customerId := customerId }

/-- C2.  Lookups for an unknown customer id return structured not-found
results: `get_recommendations` returns the error dict (non-`None` error
field, empty list) and `get_customer_segment` returns `None`; neither raises. -/
theorem unknown_customer_not_found (df : List Transaction)
    (pred : String → String → ℚ) (now : ℤ) (hp mp mult : ℚ)
    (c : String) (n : ℕ) (h : c ∉ customersOf df) :
    getRecommendations df pred c n
      = { error := some ("Customer " ++ c ++ " not found in database"),
          recommendations := [], customerId := c }
    ∧ getCustomerSegment df now hp mp mult c = none := by
  constructor
  · unfold getRecommendations
    rw [if_neg h]
  · unfold getCustomerSegment
    rw [if_neg h]

/-- Witness for C2: customer "C9" is not in the one-customer store. -/
theorem unknown_customer_not_found_witness :
    getRecommendations dfOneCustomer (fun _ _ => 0) "C9" 5
      = { error := some ("Customer " ++ "C9" ++ " not found in database"),
          recommendations := [], customerId := "C9" }
    ∧ getCustomerSegment dfOneCustomer 10 (3/4) (1/2) 1 "C9" = none :=
  unknown_customer_not_found dfOneCustomer (fun _ _ => 0) 10 (3/4) (1/2) 1 "C9" 5
    (by rw [mem_customersOf]; decide)

/-- C3.  For a known customer, every recommended product has a purchase
matrix cell equal to exactly 0: products with nonzero spend are filtered out
before ranking. -/
theorem recommendations_zero_cell (df : List Transaction)
    (pred : String → String → ℚ) (c : String) (n : ℕ)
    (hc : c ∈ customersOf df) :
    ∀ r ∈ (getRecommendations df pred c n).recommendations,
      purchaseCell df c r.productId = 0 := by
  intro r hr
  unfold getRecommendations at hr
  rw [if_pos hc] at hr
  simp only at hr
  rcases List.mem_map.mp hr with ⟨pr, hpr, rfl⟩
  have h1 : pr ∈ sortValuesDesc (((matrixProducts df).filter
      (fun p => purchaseCell df c p = 0)).map (fun p => (p, pred c p))) :=
    List.take_subset _ _ hpr
  unfold sortValuesDesc at h1
  rw [List.mem_reverse, mem_sortAsc, List.mem_reverse] at h1
  rcases List.mem_map.mp h1 with ⟨p, hp, rfl⟩
  have h2 := (List.mem_filter.mp hp).2
  simpa using h2

/-- The ordering used by `sortValuesDesc` is total. -/
theorem ratingLe_total (a b : String × ℚ) :
    decide (a.2 ≤ b.2) = true ∨ decide (b.2 ≤ a.2) = true := by
  rcases le_total a.2 b.2 with h | h
  · exact Or.inl (decide_eq_true h)
  · exact Or.inr (decide_eq_true h)

/-- The ordering used by `sortValuesDesc` is transitive. -/
theorem ratingLe_trans (a b c : String × ℚ)
    (hab : decide (a.2 ≤ b.2) = true) (hbc : decide (b.2 ≤ c.2) = true) :
    decide (a.2 ≤ c.2) = true :=
  decide_eq_true (le_trans (of_decide_eq_true hab) (of_decide_eq_true hbc))

/-- The output of `sortValuesDesc` is sorted with descending ratings. -/
theorem sortValuesDesc_sorted (l : List (String × ℚ)) :
    (sortValuesDesc l).Pairwise (fun a b => b.2 ≤ a.2) := by
  unfold sortValuesDesc
  rw [List.pairwise_reverse]
  exact (sorted_sortAsc _ ratingLe_total ratingLe_trans l.reverse).imp
    (fun h => of_decide_eq_true h)

theorem length_sortValuesDesc (l : List (String × ℚ)) :
    (sortValuesDesc l).length = l.length := by
  unfold sortValuesDesc
  rw [List.length_reverse, length_sortAsc, List.length_reverse]

theorem mem_sortValuesDesc (l : List (String × ℚ)) (x : String × ℚ) :
    x ∈ sortValuesDesc l ↔ x ∈ l := by
  unfold sortValuesDesc
  rw [List.mem_reverse, mem_sortAsc, List.mem_reverse]

theorem strLe_total (a b : String) : strLe a b = true ∨ strLe b a = true := by
  rcases le_total a b with h | h
  · exact Or.inl (decide_eq_true h)
  · exact Or.inr (decide_eq_true h)

theorem strLe_transitive (a b c : String)
    (h1 : strLe a b = true) (h2 : strLe b c = true) : strLe a c = true :=
  decide_eq_true (le_trans (of_decide_eq_true h1) (of_decide_eq_true h2))

/-- The product index is strictly ascending: sorted and duplicate-free. -/
theorem matrixProducts_sorted_lt (df : List Transaction) :
    (matrixProducts df).Pairwise (fun p q => p < q) := by
  have h1 : (matrixProducts df).Pairwise (fun x y => strLe x y = true) :=
    sorted_sortAsc strLe strLe_total strLe_transitive _
  exact (h1.and (nodup_matrixProducts df)).imp
    (fun h => lt_of_le_of_ne (of_decide_eq_true h.1) h.2)

/-- Stable insertion preserves the lexicographic invariant: ratings
ascending, and the tie-order relation `S` among equal ratings, provided the
inserted element stands in relation `S` to everything already present. -/
theorem pairwise_insertSorted_stable (S : String × ℚ → String × ℚ → Prop)
    (a : String × ℚ) :
    ∀ l : List (String × ℚ),
      l.Pairwise (fun x y => x.2 < y.2 ∨ (x.2 = y.2 ∧ S x y)) →
      (∀ y ∈ l, S a y) →
      (insertSorted (fun x y => decide (x.2 ≤ y.2)) a l).Pairwise
        (fun x y => x.2 < y.2 ∨ (x.2 = y.2 ∧ S x y))
  | [], _, _ => List.pairwise_singleton _ a
  | b :: bs, h, hS => by
    rcases List.pairwise_cons.mp h with ⟨hb, hbs⟩
    unfold insertSorted
    split
    · next hab =>
      have hab2 : a.2 ≤ b.2 := of_decide_eq_true hab
      refine List.pairwise_cons.mpr ⟨?_, h⟩
      intro z hz
      rcases List.mem_cons.mp hz with rfl | hz2
      · rcases lt_or_eq_of_le hab2 with hlt | heq
        · exact Or.inl hlt
        · exact Or.inr ⟨heq, hS z (List.mem_cons_self z bs)⟩
      · have hbz2 : b.2 ≤ z.2 := by
          rcases hb z hz2 with h1 | ⟨h1, _⟩
          · exact le_of_lt h1
          · exact le_of_eq h1
        rcases lt_or_eq_of_le (le_trans hab2 hbz2) with hlt | heq
        · exact Or.inl hlt
        · exact Or.inr ⟨heq, hS z (List.mem_cons_of_mem b hz2)⟩
    · next hab =>
      have hba : b.2 < a.2 := not_le.mp (fun hle => hab (decide_eq_true hle))
      refine List.pairwise_cons.mpr
        ⟨?_, pairwise_insertSorted_stable S a bs hbs
          (fun y hy => hS y (List.mem_cons_of_mem b hy))⟩
      intro z hz
      rcases List.mem_cons.mp ((insertSorted_perm _ a bs).mem_iff.mp hz) with rfl | hz2
      · exact Or.inl hba
      · exact hb z hz2

/-- Stability of the ascending insertion sort: a list whose ties are
ordered by `S` in input order sorts to a list that is ascending by rating
with ties still ordered by `S`. -/
theorem sortAsc_stable_pairwise (S : String × ℚ → String × ℚ → Prop) :
    ∀ l : List (String × ℚ), l.Pairwise S →
      (sortAsc (fun x y => decide (x.2 ≤ y.2)) l).Pairwise
        (fun x y => x.2 < y.2 ∨ (x.2 = y.2 ∧ S x y))
  | [], _ => List.Pairwise.nil
  | a :: as, h => by
    rcases List.pairwise_cons.mp h with ⟨ha, has⟩
    show (insertSorted _ a (sortAsc _ as)).Pairwise _
    exact pairwise_insertSorted_stable S a (sortAsc _ as)
      (sortAsc_stable_pairwise S as has)
      (fun y hy => ha y ((sortAsc_perm _ as).mem_iff.mp hy))

/-- The pandas stable descending sort on candidates listed in ascending
product-id order is descending by rating with ties broken by product id
ascending. -/
theorem sortValuesDesc_stable (l : List (String × ℚ))
    (h : l.Pairwise (fun x y => x.1 < y.1)) :
    (sortValuesDesc l).Pairwise
      (fun x y => y.2 < x.2 ∨ (y.2 = x.2 ∧ x.1 < y.1)) := by
  unfold sortValuesDesc
  rw [List.pairwise_reverse]
  exact sortAsc_stable_pairwise (fun x y => y.1 < x.1) l.reverse
    (List.pairwise_reverse.mpr h)

/-- C5.  For a known customer the result is a success (error `None`); the
list has `min n` (number of candidate products) entries, i.e. the first `N`
of the ranked candidates; the recommendations are sorted descending by
predicted rating with ties broken stably by product id ascending (the
pandas descending sort is stable and the candidates arrive in ascending
product-id order); and each entry carries the customer's predicted score
for its product and the first category observed for the product in the
store. -/
theorem getRecommendations_ranking (df : List Transaction)
    (pred : String → String → ℚ) (c : String) (n : ℕ)
    (hc : c ∈ customersOf df) :
    (getRecommendations df pred c n).error = none
    ∧ (getRecommendations df pred c n).recommendations.length
        = min n ((matrixProducts df).filter (fun p => purchaseCell df c p = 0)).length
    ∧ ((getRecommendations df pred c n).recommendations).Pairwise
        (fun r1 r2 => r2.predictedRating < r1.predictedRating
          ∨ (r2.predictedRating = r1.predictedRating ∧ r1.productId < r2.productId))
    ∧ ∀ r ∈ (getRecommendations df pred c n).recommendations,
        r.category = firstCategory df r.productId
        ∧ r.predictedRating = pred c r.productId := by
  have hres : getRecommendations df pred c n
      = { error := none
          recommendations := ((sortValuesDesc (((matrixProducts df).filter
              (fun p => purchaseCell df c p = 0)).map
                (fun p => (p, pred c p)))).take n).map (fun pr =>
            { productId := pr.1, category := firstCategory df pr.1,
              predictedRating := pr.2 })
          customerId := c } := by
    unfold getRecommendations
    rw [if_pos hc]
  rw [hres]
  refine ⟨rfl, ?_, ?_, ?_⟩
  · rw [List.length_map, List.length_take, length_sortValuesDesc, List.length_map]
  · have hcand : ((matrixProducts df).filter
        (fun p => purchaseCell df c p = 0)).Pairwise (fun p q => p < q) :=
      (matrixProducts_sorted_lt df).sublist (List.filter_sublist _)
    have hpairs : (((matrixProducts df).filter
        (fun p => purchaseCell df c p = 0)).map
          (fun p => (p, pred c p))).Pairwise (fun x y => x.1 < y.1) :=
      hcand.map _ (fun a b hab => hab)
    have hsorted := sortValuesDesc_stable _ hpairs
    have htake := hsorted.sublist (List.take_sublist n _)
    exact htake.map _ (fun a b hab => hab)
  · intro r hr
    rcases List.mem_map.mp hr with ⟨pr, hpr, rfl⟩
    refine ⟨rfl, ?_⟩
    have h1 : pr ∈ sortValuesDesc (((matrixProducts df).filter
        (fun p => purchaseCell df c p = 0)).map (fun p => (p, pred c p))) :=
      List.take_subset _ _ hpr
    rw [mem_sortValuesDesc] at h1
    rcases List.mem_map.mp h1 with ⟨p, _, rfl⟩
    rfl

theorem getD_zipWith_lt {α β γ : Type} {f : α → β → γ} {as : List α} {bs : List β}
    {i : ℕ} (hia : i < as.length) (hib : i < bs.length) (da : α) (db : β) (dc : γ) :
    (List.zipWith f as bs).getD i dc = f (as.getD i da) (bs.getD i db) := by
  rw [List.getD_eq_getElem?_getD, List.getElem?_zipWith,
    List.getElem?_eq_getElem hia, List.getElem?_eq_getElem hib,
    List.getD_eq_getElem?_getD, List.getElem?_eq_getElem hia,
    List.getD_eq_getElem?_getD, List.getElem?_eq_getElem hib]
  rfl

theorem getD_map_lt {α β : Type} {f : α → β} {l : List α} {i : ℕ}
    (hi : i < l.length) (da : α) (db : β) :
    (l.map f).getD i db = f (l.getD i da) := by
  rw [List.getD_eq_getElem?_getD, List.getElem?_map, List.getElem?_eq_getElem hi,
    List.getD_eq_getElem?_getD, List.getElem?_eq_getElem hi]
  rfl

theorem mem_zipWith_decomp {α β γ : Type} {f : α → β → γ} :
    ∀ (l₁ : List α) (l₂ : List β) (x : γ), x ∈ List.zipWith f l₁ l₂ →
      ∃ a b, a ∈ l₁ ∧ b ∈ l₂ ∧ x = f a b
  | [], _, x, h => absurd h (by simp)
  | _ :: _, [], x, h => absurd h (by simp)
  | a :: as, b :: bs, x, h => by
    rw [List.zipWith_cons_cons] at h
    rcases List.mem_cons.mp h with rfl | h2
    · exact ⟨a, b, List.mem_cons_self a as, List.mem_cons_self b bs, rfl⟩
    · rcases mem_zipWith_decomp as bs x h2 with ⟨a2, b2, ha, hb, rfl⟩
      exact ⟨a2, b2, List.mem_cons_of_mem _ ha, List.mem_cons_of_mem _ hb, rfl⟩

/-- Summing a purchase-matrix row over all product columns recovers the
customer's total spending (column-partition of the customer's transactions). -/
theorem matrixRow_sum (df : List Transaction) (c : String) :
    (matrixRow df c).sum = totalSpending df c := by
  unfold matrixRow
  have hcell : ∀ p, purchaseCell df c p
      = (((txOf df c).filter (fun t => t.productId = p)).map (fun t => t.amount)).sum := by
    intro p
    unfold purchaseCell txOf
    rw [List.filter_filter]
    have hpred : (fun t : Transaction => decide (t.customerId = c ∧ t.productId = p))
        = (fun a : Transaction => decide (a.productId = p) && decide (a.customerId = c)) := by
      funext x
      by_cases h1 : x.customerId = c <;> by_cases h2 : x.productId = p <;> simp [h1, h2]
    rw [hpred]
  calc ((matrixProducts df).map (fun p => purchaseCell df c p)).sum
      = ((matrixProducts df).map (fun p =>
          (((txOf df c).filter (fun t => t.productId = p)).map (fun t => t.amount)).sum)).sum := by
        exact congrArg List.sum (List.map_congr_left (fun p _ => hcell p))
    _ = ((txOf df c).map (fun t => t.amount)).sum :=
        sum_map_filter_key (fun t => t.productId) (fun t => t.amount)
          (matrixProducts df) (txOf df c) (nodup_matrixProducts df)
          (fun x hx => (mem_matrixProducts df x.productId).mpr
            ⟨x, List.mem_of_mem_filter hx, rfl⟩)
    _ = totalSpending df c := rfl

/-- C4.  The predicted-affinity matrix built from any factor components of
the shapes `svds` returns (`U`: customers×k, `sigma`: k, `Vt`: k×products,
with `k < min(customers, products)`) has one score per (customer, product)
pair; the centred matrix subtracts each customer's row mean from their row;
each predicted row is the reconstruction row plus that customer's row mean;
and a customer with a single transaction has row mean equal to that amount
divided by the number of products. -/
theorem predictedRatings_shape (df : List Transaction) (U : List (List ℚ))
    (σ : List ℚ) (Vt : List (List ℚ)) (k : ℕ)
    (hU : U.length = (customersOf df).length)
    (hσ : σ.length = k)
    (hVt : Vt.length = k)
    (hVtrows : ∀ vrow ∈ Vt, vrow.length = (matrixProducts df).length)
    (hk : 0 < k)
    (hkmin : k < min (customersOf df).length (matrixProducts df).length) :
    (predictedRatings df U σ Vt).length = (customersOf df).length
    ∧ (∀ row ∈ predictedRatings df U σ Vt, row.length = (matrixProducts df).length)
    ∧ (∀ i : ℕ, i < (customersOf df).length →
        (centeredMatrix df).getD i []
          = ((purchaseMatrix df).getD i []).map
              (fun x => x - rowMean ((purchaseMatrix df).getD i [])))
    ∧ (∀ i : ℕ, i < (customersOf df).length →
        (predictedRatings df U σ Vt).getD i []
          = ((matMul (matMul U (diagMat σ)) Vt).getD i []).map
              (fun x => x + rowMean ((purchaseMatrix df).getD i [])))
    ∧ (∀ c t, df.filter (fun x => x.customerId = c) = [t] →
        rowMean (matrixRow df c) = t.amount / ((matrixProducts df).length : ℚ)) := by
  have hA : (matMul (matMul U (diagMat σ)) Vt).length = (customersOf df).length := by
    unfold matMul
    rw [List.length_map, List.length_map]
    exact hU
  have hPM : (purchaseMatrix df).length = (customersOf df).length :=
    List.length_map _ _
  have hMeans : (userMeans df).length = (customersOf df).length := by
    unfold userMeans
    rw [List.length_map]
    exact hPM
  refine ⟨?_, ?_, ?_, ?_, ?_⟩
  · unfold predictedRatings
    rw [List.length_zipWith, hA, hMeans, Nat.min_self]
  · intro row hrow
    rcases mem_zipWith_decomp _ _ _ hrow with ⟨r, m, hr, _, rfl⟩
    rw [List.length_map]
    unfold matMul at hr
    rcases List.mem_map.mp hr with ⟨ar, _, rfl⟩
    rw [List.length_map, List.length_range]
    unfold numColsOf
    cases hVtnil : Vt with
    | nil =>
      rw [hVtnil] at hVt
      have hz : (0 : ℕ) = k := by simpa using hVt
      omega
    | cons v rest =>
      show v.length = (matrixProducts df).length
      exact hVtrows v (hVtnil ▸ List.mem_cons_self v rest)
  · intro i hi
    unfold centeredMatrix
    rw [getD_zipWith_lt (by rw [hPM]; exact hi : i < (purchaseMatrix df).length)
      (by rw [hMeans]; exact hi : i < (userMeans df).length) [] 0 []]
    have hmean : (userMeans df).getD i 0 = rowMean ((purchaseMatrix df).getD i []) := by
      unfold userMeans
      exact getD_map_lt (by rw [hPM]; exact hi) [] 0
    rw [hmean]
  · intro i hi
    unfold predictedRatings
    rw [getD_zipWith_lt (by rw [hA]; exact hi : i < (matMul (matMul U (diagMat σ)) Vt).length)
      (by rw [hMeans]; exact hi : i < (userMeans df).length) [] 0 []]
    have hmean : (userMeans df).getD i 0 = rowMean ((purchaseMatrix df).getD i []) := by
      unfold userMeans
      exact getD_map_lt (by rw [hPM]; exact hi) [] 0
    rw [hmean]
  · intro c t h
    have htot : totalSpending df c = t.amount := by
      unfold totalSpending txOf
      rw [h]
      simp
    unfold rowMean
    rw [matrixRow_sum, htot]
    unfold matrixRow
    rw [List.length_map]

/-- Sorting an already-sorted list leaves it unchanged. -/
theorem sortAsc_of_sorted (le : α → α → Bool) :
    ∀ l : List α, l.Pairwise (fun x y => le x y = true) → sortAsc le l = l
  | [], _ => rfl
  | a :: as, h => by
    rcases List.pairwise_cons.mp h with ⟨ha, has⟩
    show insertSorted le a (sortAsc le as) = a :: as
    rw [sortAsc_of_sorted le as has]
    cases as with
    | nil => rfl
    | cons b bs =>
      unfold insertSorted
      rw [if_pos (ha b (List.mem_cons_self b bs))]

theorem strLe_true {a b : String} (h : a.toList ≤ b.toList) : strLe a b = true :=
  decide_eq_true (String.le_iff_toList_le.mpr h)

/-- The three transactions of the concrete recommendation example: customer
C1 bought P0; customer C2 bought P1 and P2. -/
def txA : Transaction :=
  { customerId := "C1", productId := "P0", category := "Alpha",
    amount := 5, purchaseDate := 0 }

def txB : Transaction :=
  { customerId := "C2", productId := "P1", category := "Alpha",
    amount := 3, purchaseDate := 1 }

def txC : Transaction :=
  { customerId := "C2", productId := "P2", category := "Beta",
    amount := 4, purchaseDate := 2 }

def dfRec : List Transaction := [txA, txB, txC]

/-- A prediction function giving every pair the same score: every candidate
is tied. -/
def predZero : String → String → ℚ := fun _ _ => 0

theorem customersOf_dfRec : customersOf dfRec = ["C1", "C2"] := by
  unfold customersOf
  have h1 : uniqueFirst (dfRec.map (fun t => t.customerId)) = ["C1", "C2"] := by decide
  rw [h1]
  apply sortAsc_of_sorted
  refine List.pairwise_cons.mpr ⟨?_, List.pairwise_singleton _ _⟩
  intro y hy
  rw [List.mem_singleton] at hy
  subst hy
  exact strLe_true (by decide)

theorem matrixProducts_dfRec : matrixProducts dfRec = ["P0", "P1", "P2"] := by
  unfold matrixProducts
  have h1 : uniqueFirst (dfRec.map (fun t => t.productId)) = ["P0", "P1", "P2"] := by decide
  rw [h1]
  apply sortAsc_of_sorted
  refine List.pairwise_cons.mpr ⟨?_, List.pairwise_cons.mpr ⟨?_, List.pairwise_singleton _ _⟩⟩
  · intro y hy
    rcases List.mem_cons.mp hy with rfl | hy
    · exact strLe_true (by decide)
    · rw [List.mem_singleton] at hy
      subst hy
      exact strLe_true (by decide)
  · intro y hy
    rw [List.mem_singleton] at hy
    subst hy
    exact strLe_true (by decide)

theorem cell_C1_P0 : purchaseCell dfRec "C1" "P0" = 5 := by
  norm_num [purchaseCell, dfRec, txA, txB, txC, List.filter_cons,
    show ("C2" : String) ≠ "C1" from by decide]

theorem cell_C1_P1 : purchaseCell dfRec "C1" "P1" = 0 := by
  norm_num [purchaseCell, dfRec, txA, txB, txC, List.filter_cons,
    show ("C2" : String) ≠ "C1" from by decide,
    show ("P0" : String) ≠ "P1" from by decide]

theorem cell_C1_P2 : purchaseCell dfRec "C1" "P2" = 0 := by
  norm_num [purchaseCell, dfRec, txA, txB, txC, List.filter_cons,
    show ("C2" : String) ≠ "C1" from by decide,
    show ("P0" : String) ≠ "P2" from by decide]

/-- Full evaluation of `get_recommendations` on the concrete store: both
candidates P1 and P2 are tied at score 0, and the stable pandas descending
sort keeps them in their original ascending product-id order. -/
theorem getRecommendations_dfRec_eval :
    getRecommendations dfRec predZero "C1" 2
      = { error := none
          recommendations :=
            [{ productId := "P1", category := "Alpha", predictedRating := 0 },
             { productId := "P2", category := "Beta", predictedRating := 0 }]
          customerId := "C1" } := by
  have hc : "C1" ∈ customersOf dfRec := by
    rw [customersOf_dfRec]
    decide
  have hfil : (matrixProducts dfRec).filter (fun p => purchaseCell dfRec "C1" p = 0)
      = ["P1", "P2"] := by
    rw [matrixProducts_dfRec]
    norm_num [List.filter_cons, cell_C1_P0, cell_C1_P1, cell_C1_P2]
  have hpair : ([("P2", (0 : ℚ)), ("P1", 0)]).Pairwise
      (fun x y : String × ℚ => decide (x.2 ≤ y.2) = true) := by
    refine List.pairwise_cons.mpr ⟨?_, List.pairwise_singleton _ _⟩
    intro y hy
    rw [List.mem_singleton] at hy
    subst hy
    exact decide_eq_true le_rfl
  have hsort : sortValuesDesc (["P1", "P2"].map (fun p => (p, predZero "C1" p)))
      = [("P1", (0 : ℚ)), ("P2", 0)] := by
    show sortValuesDesc [("P1", (0 : ℚ)), ("P2", 0)] = [("P1", (0 : ℚ)), ("P2", 0)]
    unfold sortValuesDesc
    show (sortAsc (fun a b => decide (a.2 ≤ b.2))
      [("P2", (0 : ℚ)), ("P1", 0)]).reverse = [("P1", (0 : ℚ)), ("P2", 0)]
    rw [sortAsc_of_sorted _ _ hpair]
    rfl
  unfold getRecommendations
  rw [if_pos hc, hfil]
  simp only [hsort]
  norm_num [firstCategory, dfRec, txA, txB, txC, List.filter_cons,
    show ("P0" : String) ≠ "P2" from by decide,
    show ("P1" : String) ≠ "P2" from by decide,
    show ("P0" : String) ≠ "P1" from by decide]

/-- Witness for C3: the recommended product P2 for customer C1 has a zero
purchase-matrix cell. -/
theorem recommendations_zero_cell_witness :
    purchaseCell dfRec "C1" "P2" = 0 :=
  recommendations_zero_cell dfRec predZero "C1" 2
    (by rw [customersOf_dfRec]; decide)
    { productId := "P2", category := "Beta", predictedRating := 0 }
    (by rw [getRecommendations_dfRec_eval]; decide)

/-- Witness for C5 on the concrete store, where both candidates are tied:
the result is a success of the right length, sorted descending with the tie
broken by ascending product id. -/
theorem getRecommendations_ranking_witness :
    (getRecommendations dfRec predZero "C1" 2).error = none
    ∧ (getRecommendations dfRec predZero "C1" 2).recommendations.length
        = min 2 ((matrixProducts dfRec).filter
            (fun p => purchaseCell dfRec "C1" p = 0)).length
    ∧ ((getRecommendations dfRec predZero "C1" 2).recommendations).Pairwise
        (fun r1 r2 => r2.predictedRating < r1.predictedRating
          ∨ (r2.predictedRating = r1.predictedRating ∧ r1.productId < r2.productId)) := by
  have h := getRecommendations_ranking dfRec predZero "C1" 2
    (by rw [customersOf_dfRec]; decide)
  exact ⟨h.1, h.2.1, h.2.2.1⟩

/-- Witness for C4: a rank-1 factorization of the 2×3 example matrix; the
single-transaction customer C1 has row mean 5/3. -/
theorem predictedRatings_shape_witness :
    (predictedRatings dfRec [[1], [2]] [3] [[1, 0, 2]]).length
        = (customersOf dfRec).length
    ∧ rowMean (matrixRow dfRec "C1")
        = txA.amount / ((matrixProducts dfRec).length : ℚ) := by
  have h := predictedRatings_shape dfRec [[1], [2]] [3] [[1, 0, 2]] 1
    (by rw [customersOf_dfRec]; rfl)
    rfl
    rfl
    (by
      intro v hv
      rw [List.mem_singleton] at hv
      subst hv
      rw [matrixProducts_dfRec]
      rfl)
    (by norm_num)
    (by rw [customersOf_dfRec, matrixProducts_dfRec]; decide)
  exact ⟨h.1, h.2.2.2.2 "C1" txA (by decide)⟩
